import Mathlib

/-!
Verification of the stream utility core (src/lib/util/stream_utils.js).

The data model (Stream, Variant, Period, Manifest, Restrictions, Track)
follows section 3 of the specification and the shapes the source code
reads and writes.  JavaScript numbers are embedded as Nat where the code
only compares sizes (ids, widths, heights, bandwidths) and as Rat where
fractional values matter (start times, frame rates, tolerances).  Nullable
values are Option; JavaScript falsy coercions such as `x || null` are made
explicit.  External collaborators (the DRM capability context, the
platform decode query, the text render query and the language matching
utility) are consumed through parameters, mirroring the narrow query
interfaces of section 6 of the specification.
-/

namespace Shaka

/-- An elementary track, the Stream record of the manifest model. -/
structure Stream where
  id : Nat
  type : String
  language : String
  codecs : String
  mimeType : String
  bandwidth : Nat
  roles : List String
  primary : Bool
  encrypted : Bool
  kind : Option String
  label : Option String
  width : Nat
  height : Nat
  frameRate : Rat
  channelsCount : Option Nat
deriving DecidableEq, Repr

/-- A playable pairing of at most one audio and at most one video Stream. -/
structure Variant where
  id : Nat
  audio : Option Stream
  video : Option Stream
  bandwidth : Nat
  language : String
  primary : Bool
  allowedByApplication : Bool
  allowedByKeySystem : Bool
deriving DecidableEq, Repr

/-- A time bounded slice of the presentation. -/
structure Period where
  startTime : Rat
  variants : List Variant
  textStreams : List Stream
deriving DecidableEq, Repr

/-- The manifest: an ordered sequence of Periods. -/
structure Manifest where
  periods : List Period
  minBufferTime : Rat
deriving DecidableEq, Repr

/-- User supplied restriction bounds (absent bounds are resolved by the
caller before reaching this core). -/
structure Restrictions where
  minWidth : Nat
  maxWidth : Nat
  minHeight : Nat
  maxHeight : Nat
  minPixels : Nat
  maxPixels : Nat
  minBandwidth : Nat
  maxBandwidth : Nat
deriving DecidableEq, Repr

/-- The maximum resolution the hardware can handle. -/
structure MaxHwRes where
  width : Nat
  height : Nat
deriving DecidableEq, Repr

/-- The flat, display oriented track projection. -/
structure Track where
  id : Nat
  active : Bool
  type : String
  bandwidth : Nat
  language : String
  label : Option String
  kind : Option String
  width : Option Nat
  height : Option Nat
  frameRate : Option Rat
  mimeType : Option String
  codecs : Option String
  audioCodec : Option String
  videoCodec : Option String
  primary : Bool
  roles : List String
  videoId : Option Nat
  audioId : Option Nat
  channelsCount : Option Nat
  audioBandwidth : Option Nat
  videoBandwidth : Option Nat
deriving DecidableEq, Repr

/-- The DRM capability context of section 6: initialized flag, key system
verdict per variant, and the supported full MIME types.  The source passes
a possibly null engine, embedded as Option DrmEngine. -/
structure DrmEngine where
  initialized : Bool
  isSupportedByKeySystem : Variant → Bool
  getSupportedTypes : List String

/-- The three language match tiers of shaka.util.LanguageUtils.MatchType,
from loosest to strictest. -/
inductive MatchType where
  | OTHER_SUB_LANGUAGE_OKAY
  | BASE_LANGUAGE_OKAY
  | EXACT

/-- The language matching utility the selector depends on (section 2 of the
specification).  shaka.util.LanguageUtils is not under src/, so the
selector is parameterised over it: normalize prepares a language tag and
matches decides one tier. -/
structure LanguageUtils where
  normalize : String → String
  langMatch : MatchType → String → String → Bool

/-- Modelled from the spec: shaka.util.MimeUtils.getFullType is not under
src/; the spec describes the full MIME type as mimeType plus codecs, and
the standard rendering appends a codecs parameter when codecs is nonempty
(JavaScript truthiness of the codecs string). -/
def getFullType (mimeType codecs : String) : String :=
  if codecs = "" then mimeType
  else mimeType ++ "; codecs=\"" ++ codecs ++ "\""

/-- Helper for removeDuplicates: keeps elements not seen before. -/
def removeDupAux : List String → List String → List String
  | [], _ => []
  | x :: xs, seen =>
    if x ∈ seen then removeDupAux xs seen else x :: removeDupAux xs (x :: seen)

/-- Modelled from the spec: shaka.util.ArrayUtils.removeDuplicates is not
under src/; the spec says duplicates are removed while preserving first
seen order. -/
def removeDuplicates (l : List String) : List String :=
  removeDupAux l []

/-- JavaScript coercion `n || null` on a number that is null when zero. -/
def orNullNat (n : Nat) : Option Nat :=
  if n = 0 then none else some n

/-- JavaScript coercion `q || null` on a number that is null when zero. -/
def orNullRat (q : Rat) : Option Rat :=
  if q = 0 then none else some q

/-- JavaScript coercion `s || null` on a string that is null when empty. -/
def orNullStr (s : String) : Option String :=
  if s = "" then none else some s

/-- Embeds shaka.util.StreamUtils.meetsRestrictions
(src/lib/util/stream_utils.js lines 48 to 69). -/
def meetsRestrictions (variant : Variant) (restrictions : Restrictions)
    (maxHwRes : MaxHwRes) : Bool :=
  (match variant.video with
   | some video =>
     !(decide (video.width < restrictions.minWidth) ||
       decide (video.width > restrictions.maxWidth) ||
       decide (video.width > maxHwRes.width) ||
       decide (video.height < restrictions.minHeight) ||
       decide (video.height > restrictions.maxHeight) ||
       decide (video.height > maxHwRes.height) ||
       decide (video.width * video.height < restrictions.minPixels) ||
       decide (video.width * video.height > restrictions.maxPixels))
   | none => true) &&
  !(decide (variant.bandwidth < restrictions.minBandwidth) ||
    decide (variant.bandwidth > restrictions.maxBandwidth))

/-- Embeds shaka.util.StreamUtils.applyRestrictions (lines 78 to 93): the
returned Period carries the recomputed allowedByApplication flags, the
Bool is the tracksChanged result. -/
def applyRestrictions (period : Period) (restrictions : Restrictions)
    (maxHwRes : MaxHwRes) : Period × Bool :=
  ({ period with
     variants := period.variants.map fun variant =>
       { variant with
         allowedByApplication := meetsRestrictions variant restrictions maxHwRes } },
   period.variants.any fun variant =>
     variant.allowedByApplication != meetsRestrictions variant restrictions maxHwRes)

/-- Embeds shaka.util.StreamUtils.isPlayable (lines 460 to 462). -/
def isPlayable (variant : Variant) : Bool :=
  variant.allowedByApplication && variant.allowedByKeySystem

/-- Embeds shaka.util.StreamUtils.getPlayableVariants (lines 470 to 474). -/
def getPlayableVariants (variants : List Variant) : List Variant :=
  variants.filter fun variant => isPlayable variant

/-- The codec string up to, not including, the first dot:
`codecs.split(".")[0]` in the source. -/
def codecBase (codecs : String) : String :=
  (codecs.splitOn ".").headD ""

/-- Embeds shaka.util.StreamUtils.isStreamCompatible_ (lines 162 to 204),
with the platform decode query isStreamSupported passed as a parameter. -/
def isStreamCompatible_ (isStreamSupported : Stream → Bool)
    (stream : Option Stream) (drmEngine : Option DrmEngine)
    (activeStream : Option Stream) : Bool :=
  match stream with
  | none => true
  | some s =>
    let drmSupportedMimeTypes : Option (List String) :=
      match drmEngine with
      | some d => if d.initialized then some d.getSupportedTypes else none
      | none => none
    let fullMimeType := getFullType s.mimeType s.codecs
    if !(isStreamSupported s) then false
    else if (match drmSupportedMimeTypes with
             | some types => s.encrypted && !(types.contains fullMimeType)
             | none => false) then false
    else match activeStream with
      | some active =>
        !((s.mimeType != active.mimeType) ||
          (codecBase s.codecs != codecBase active.codecs))
      | none => true

/-- Embeds shaka.util.StreamUtils.isVariantCompatible_ (lines 218 to 228). -/
def isVariantCompatible_ (isStreamSupported : Stream → Bool)
    (variant : Variant) (drmEngine : Option DrmEngine)
    (activeAudio activeVideo : Option Stream) : Bool :=
  (match drmEngine with
   | some d => if d.initialized then d.isSupportedByKeySystem variant else true
   | none => true) &&
  isStreamCompatible_ isStreamSupported variant.audio drmEngine activeAudio &&
  isStreamCompatible_ isStreamSupported variant.video drmEngine activeVideo

/-- Embeds shaka.util.StreamUtils.filterNewPeriod (lines 104 to 149), with
the platform decode query and the text render query passed as parameters.
The source mutates the Period in place; the embedding returns the filtered
Period. -/
def filterNewPeriod (isStreamSupported : Stream → Bool)
    (isTypeSupported : String → Bool) (drmEngine : Option DrmEngine)
    (activeAudio activeVideo : Option Stream) (period : Period) : Period :=
  { period with
    variants := period.variants.filter fun variant =>
      isVariantCompatible_ isStreamSupported variant drmEngine activeAudio activeVideo,
    textStreams := period.textStreams.filter fun stream =>
      isTypeSupported (getFullType stream.mimeType stream.codecs) }

/-- The union of the audio and the video roles of a variant, audio first,
as built by both variantToTrack and the role fallback of the selector. -/
def varRoles (variant : Variant) : List String :=
  (match variant.audio with
   | some audio => audio.roles
   | none => []) ++
  (match variant.video with
   | some video => video.roles
   | none => [])

/-- Embeds shaka.util.StreamUtils.variantToTrack (lines 235 to 312).  The
JavaScript falsy coercions `x || null` appear as orNullNat / orNullStr /
orNullRat. -/
def variantToTrack (variant : Variant) : Track :=
  let audio := variant.audio
  let video := variant.video
  let audioCodec : Option String := audio.map fun a => a.codecs
  let videoCodec : Option String := video.map fun v => v.codecs
  let codecs : List String :=
    (match videoCodec with
     | some c => if c = "" then [] else [c]
     | none => []) ++
    (match audioCodec with
     | some c => if c = "" then [] else [c]
     | none => [])
  let mimeTypes : List String :=
    (match video with
     | some v => [v.mimeType]
     | none => []) ++
    (match audio with
     | some a => [a.mimeType]
     | none => [])
  let mimeType : Option String :=
    match mimeTypes.head? with
    | some m => orNullStr m
    | none => none
  let kinds : List (Option String) :=
    (match audio with
     | some a => [a.kind]
     | none => []) ++
    (match video with
     | some v => [v.kind]
     | none => [])
  let kind : Option String :=
    match kinds.head? with
    | some (some k) => orNullStr k
    | some none => none
    | none => none
  let roles := removeDuplicates (varRoles variant)
  let track : Track :=
    { id := variant.id
      active := false
      type := "variant"
      bandwidth := variant.bandwidth
      language := variant.language
      label := none
      kind := kind
      width := none
      height := none
      frameRate := none
      mimeType := mimeType
      codecs := some (String.intercalate ", " codecs)
      audioCodec := audioCodec
      videoCodec := videoCodec
      primary := variant.primary
      roles := roles
      videoId := none
      audioId := none
      channelsCount := none
      audioBandwidth := none
      videoBandwidth := none }
  let track :=
    match video with
    | some v =>
      { track with
        videoId := some v.id
        width := orNullNat v.width
        height := orNullNat v.height
        frameRate := orNullRat v.frameRate
        videoBandwidth := orNullNat v.bandwidth }
    | none => track
  match audio with
  | some a =>
    { track with
      audioId := some a.id
      channelsCount := a.channelsCount
      audioBandwidth := orNullNat a.bandwidth
      label := a.label }
  | none => track

/-- The predicate of the filter inside filterVariantsByRole_ (lines 667 to
670): the variant exposes the role through its audio or its video roles. -/
def variantHasRole (variant : Variant) (role : String) : Bool :=
  (match variant.audio with
   | some audio => audio.roles.contains role
   | none => false) ||
  (match variant.video with
   | some video => video.roles.contains role
   | none => false)

/-- Embeds shaka.util.StreamUtils.filterVariantsByRole_ (lines 665 to 671). -/
def filterVariantsByRole_ (variants : List Variant) (preferredRole : String) :
    List Variant :=
  variants.filter fun variant => variantHasRole variant preferredRole

/-- The predicate of the filter inside filterTextStreamsByRole_ (lines 684
to 686). -/
def streamHasRole (stream : Stream) (role : String) : Bool :=
  stream.roles.contains role

/-- Embeds shaka.util.StreamUtils.filterTextStreamsByRole_ (lines 682 to
687). -/
def filterTextStreamsByRole_ (textStreams : List Stream)
    (preferredRole : String) : List Stream :=
  textStreams.filter fun stream => streamHasRole stream preferredRole

/-- The allRoles collection of the variant selector (lines 557 to 561):
roles of every chosen variant, collapsed left to right with concat, which
is reduce over shaka.util.Functional.collapseArrays starting from []. -/
def variantAllRoles (chosen : List Variant) : List String :=
  (chosen.map varRoles).foldl (fun a b => a ++ b) []

/-- The allRoles collection of the stream selector (lines 646 to 648). -/
def streamAllRoles (chosen : List Stream) : List String :=
  (chosen.map fun stream => stream.roles).foldl (fun a b => a ++ b) []

/-- The arbitrary role step of the variant selector (lines 563 to 566): if
no roles exist the chosen set is returned as is, otherwise it is filtered
to the first role encountered. -/
def variantRoleFallback (chosen : List Variant) : List Variant :=
  match variantAllRoles chosen with
  | [] => chosen
  | role :: _ => filterVariantsByRole_ chosen role

/-- The arbitrary role step of the stream selector (lines 650 to 653). -/
def streamRoleFallback (chosen : List Stream) : List Stream :=
  match streamAllRoles chosen with
  | [] => chosen
  | role :: _ => filterTextStreamsByRole_ chosen role

/-- The mutable state of the language preference loop of the variant
selector: the running chosen list, the pref variable (reassigned to its
normalization on every iteration in the source) and the side channel
languageMatches flag. -/
structure LangState where
  chosen : List Variant
  pref : String
  matched : Bool
deriving Repr

/-- One iteration of the inner forEach of the variant language tier loop
(lines 525 to 539).  The Bool alongside the state is the tier local
betterLangMatchFound flag. -/
def variantTierStep (LU : LanguageUtils) (matchType : MatchType)
    (acc : LangState × Bool) (variant : Variant) : LangState × Bool :=
  let st := acc.1
  let betterLangMatchFound := acc.2
  let pref := LU.normalize st.pref
  let lang := LU.normalize variant.language
  if LU.langMatch matchType pref lang then
    ({ chosen := if betterLangMatchFound then st.chosen ++ [variant] else [variant],
       pref := pref, matched := true }, true)
  else
    ({ st with pref := pref }, betterLangMatchFound)

/-- One tier of the variant language preference loop: iterates the original
playable set with a fresh betterLangMatchFound flag (lines 523 to 540). -/
def runVariantTier (LU : LanguageUtils) (playable : List Variant)
    (matchType : MatchType) (st : LangState) : LangState :=
  (playable.foldl (variantTierStep LU matchType) (st, false)).1

/-- Steps 1 to 3 of the variant selector (lines 492 to 541): playable set,
primary reduction, single language reduction, then the three language
preference tiers when a preferred language is supplied.  Returns the
chosen list and the languageMatches side channel flag. -/
def selectVariantsByLanguage (LU : LanguageUtils) (playable : List Variant)
    (preferredLanguage : String) : List Variant × Bool :=
  let primary := playable.filter fun variant => variant.primary
  let chosen := if primary ≠ [] then primary else playable
  let firstLanguage := chosen.head?.elim "" fun variant => variant.language
  let chosen := chosen.filter fun variant => variant.language == firstLanguage
  if preferredLanguage ≠ "" then
    let final :=
      [MatchType.OTHER_SUB_LANGUAGE_OKAY, MatchType.BASE_LANGUAGE_OKAY,
       MatchType.EXACT].foldl
        (fun st matchType => runVariantTier LU playable matchType st)
        { chosen := chosen, pref := LU.normalize preferredLanguage,
          matched := false }
    (final.chosen, final.matched)
  else
    (chosen, false)

/-- Embeds shaka.util.StreamUtils.filterVariantsByLanguageAndRole (lines
486 to 567): language phase, then the preferred role filter which returns
its matches when nonempty, otherwise the arbitrary role fallback.  The
second component is the opt_languageMatches side channel. -/
def filterVariantsByLanguageAndRole (LU : LanguageUtils)
    (variants : List Variant) (preferredLanguage preferredRole : String) :
    List Variant × Bool :=
  let playable := getPlayableVariants variants
  let sel := selectVariantsByLanguage LU playable preferredLanguage
  if preferredRole ≠ "" ∧ filterVariantsByRole_ sel.1 preferredRole ≠ [] then
    (filterVariantsByRole_ sel.1 preferredRole, sel.2)
  else
    (variantRoleFallback sel.1, sel.2)

/-- The mutable state of the language preference loop of the stream
selector (the pref variable is not reassigned there). -/
structure StreamLangState where
  chosen : List Stream
  matched : Bool
deriving Repr

/-- One iteration of the inner forEach of the stream language tier loop
(lines 615 to 627). -/
def streamTierStep (LU : LanguageUtils) (pref : String) (matchType : MatchType)
    (acc : StreamLangState × Bool) (stream : Stream) : StreamLangState × Bool :=
  let lang := LU.normalize stream.language
  if LU.langMatch matchType pref lang then
    ({ chosen := if acc.2 then acc.1.chosen ++ [stream] else [stream],
       matched := true }, true)
  else
    acc

/-- One tier of the stream language preference loop (lines 613 to 628). -/
def runStreamTier (LU : LanguageUtils) (streams : List Stream) (pref : String)
    (matchType : MatchType) (st : StreamLangState) : StreamLangState :=
  (streams.foldl (streamTierStep LU pref matchType) (st, false)).1

/-- Steps 1 to 3 of the stream selector (lines 584 to 629). -/
def selectStreamsByLanguage (LU : LanguageUtils) (streams : List Stream)
    (preferredLanguage : String) : List Stream × Bool :=
  let primary := streams.filter fun stream => stream.primary
  let chosen := if primary ≠ [] then primary else streams
  let firstLanguage := chosen.head?.elim "" fun stream => stream.language
  let chosen := chosen.filter fun stream => stream.language == firstLanguage
  if preferredLanguage ≠ "" then
    let pref := LU.normalize preferredLanguage
    let final :=
      [MatchType.OTHER_SUB_LANGUAGE_OKAY, MatchType.BASE_LANGUAGE_OKAY,
       MatchType.EXACT].foldl
        (fun st matchType => runStreamTier LU streams pref matchType st)
        { chosen := chosen, matched := false }
    (final.chosen, final.matched)
  else
    (chosen, false)

/-- Embeds shaka.util.StreamUtils.filterStreamsByLanguageAndRole (lines 579
to 654). -/
def filterStreamsByLanguageAndRole (LU : LanguageUtils)
    (streams : List Stream) (preferredLanguage preferredRole : String) :
    List Stream × Bool :=
  let sel := selectStreamsByLanguage LU streams preferredLanguage
  if preferredRole ≠ "" ∧ filterTextStreamsByRole_ sel.1 preferredRole ≠ [] then
    (filterTextStreamsByRole_ sel.1 preferredRole, sel.2)
  else
    (streamRoleFallback sel.1, sel.2)

/-- The descending scan of findPeriodContainingTime: index i is tested
against the threshold adjusted time t, index 0 is never tested and is the
fallback. -/
def findPeriodLoop (periods : List Period) (t : Rat) : Nat → Nat
  | 0 => 0
  | i + 1 =>
    match periods.get? (i + 1) with
    | some period => if t ≥ period.startTime then i + 1 else findPeriodLoop periods t i
    | none => findPeriodLoop periods t i

/-- Embeds shaka.util.StreamUtils.findPeriodContainingTime (lines 756 to
766).  The threshold models the external constant
shaka.util.ManifestParserUtils.GAP_OVERLAP_TOLERANCE_SECONDS, which is not
under src/, and is taken as a parameter. -/
def findPeriodContainingTime (threshold : Rat) (manifest : Manifest)
    (time : Rat) : Nat :=
  findPeriodLoop manifest.periods (time + threshold) (manifest.periods.length - 1)

/-! ### Claim-side predicates for the compatibility filter (C3) -/

/-- The DRM context counts as initialized when an engine is present and its
initialized query is true (a null engine is never initialized). -/
def drmInitialized : Option DrmEngine → Bool
  | some d => d.initialized
  | none => false

/-- The supported full MIME types of the DRM context, empty for a null
engine. -/
def drmTypes : Option DrmEngine → List String
  | some d => d.getSupportedTypes
  | none => []

/-- The key system verdict of the DRM context, vacuously true for a null
engine. -/
def drmKeySupported : Option DrmEngine → Variant → Bool
  | some d, variant => d.isSupportedByKeySystem variant
  | none, _ => true

/-- The stream compatibility predicate as the claim states it: platform
decodable, full MIME type in the DRM supported list when the context is
initialized and the stream is encrypted, and matching base MIME type and
codec prefix against a same kind active stream when one is given. -/
def specStreamCompatible (isStreamSupported : Stream → Bool)
    (drmEngine : Option DrmEngine) (active : Option Stream) (s : Stream) : Bool :=
  isStreamSupported s &&
  (!(drmInitialized drmEngine && s.encrypted) ||
    (drmTypes drmEngine).contains (getFullType s.mimeType s.codecs)) &&
  (match active with
   | some a => (s.mimeType == a.mimeType) && (codecBase s.codecs == codecBase a.codecs)
   | none => true)

/-- The variant survival predicate as the claim states it. -/
def specVariantSurvives (isStreamSupported : Stream → Bool)
    (drmEngine : Option DrmEngine) (activeAudio activeVideo : Option Stream)
    (variant : Variant) : Bool :=
  (!(drmInitialized drmEngine) || drmKeySupported drmEngine variant) &&
  (match variant.audio with
   | some a => specStreamCompatible isStreamSupported drmEngine activeAudio a
   | none => true) &&
  (match variant.video with
   | some v => specStreamCompatible isStreamSupported drmEngine activeVideo v
   | none => true)

/-- The text stream survival predicate as the claim states it. -/
def specTextSurvives (isTypeSupported : String → Bool) (s : Stream) : Bool :=
  isTypeSupported (getFullType s.mimeType s.codecs)

/-! ### Concrete fixtures used by witnesses and counterexamples -/

/-- A language utility with identity normalization and equality matching on
every tier, used to instantiate the parameterised selector on concrete
inputs. -/
def LUid : LanguageUtils :=
  { normalize := fun s => s
    langMatch := fun _ pref lang => pref == lang }

/-- A baseline audio stream for fixtures. -/
def bStream : Stream :=
  { id := 0
    type := "audio"
    language := "en"
    codecs := "mp4a.40.2"
    mimeType := "audio/mp4"
    bandwidth := 128
    roles := []
    primary := false
    encrypted := false
    kind := none
    label := none
    width := 0
    height := 0
    frameRate := 0
    channelsCount := none }

/-- A baseline playable audio only variant for fixtures. -/
def bVariant : Variant :=
  { id := 0
    audio := some bStream
    video := none
    bandwidth := 128
    language := "en"
    primary := false
    allowedByApplication := true
    allowedByKeySystem := true }

/-- A playable variant exposing the role commentary. -/
def c2v1 : Variant :=
  { bVariant with
    id := 1
    audio := some { bStream with roles := ["commentary"] } }

/-- A playable variant exposing the role main. -/
def c2v2 : Variant :=
  { bVariant with
    id := 2
    audio := some { bStream with roles := ["main"] } }

/-- A playable variant with base language en. -/
def w1a : Variant := { bVariant with id := 3, language := "en" }

/-- A playable variant with the exact language en-us. -/
def w1b : Variant := { bVariant with id := 4, language := "en-us" }

/-- A video stream with an empty MIME string (a legal JavaScript value). -/
def vC8video : Stream :=
  { bStream with type := "video", mimeType := "", codecs := "avc1.4d401f" }

/-- A video only variant whose video stream has an empty MIME string. -/
def vC8 : Variant := { bVariant with audio := none, video := some vC8video }

/-- A variant whose video stream has an empty codec string while its audio
stream (the baseline) has a nonempty one. -/
def vC8b : Variant :=
  { bVariant with
    video := some { bStream with type := "video", codecs := "" } }

/-- A video stream with ordinary MIME type and codec strings. -/
def vBothVideo : Stream :=
  { bStream with type := "video", mimeType := "video/mp4", codecs := "avc1.4d401f" }

/-- A variant with both an audio and a video stream. -/
def vBoth : Variant := { bVariant with video := some vBothVideo }

/-- A manifest with three periods starting at 0, 10 and 20. -/
def M3 : Manifest :=
  { periods := [ { startTime := 0, variants := [], textStreams := [] },
      { startTime := 10, variants := [], textStreams := [] },
      { startTime := 20, variants := [], textStreams := [] } ]
    minBufferTime := 0 }

/-! ### Helper lemmas about the embedded operations -/

theorem foldl_append_eq (L : List (List String)) :
    ∀ a : List String, L.foldl (fun x y => x ++ y) a = a ++ L.flatten := by
  induction L with
  | nil => intro a; simp
  | cons x t ih => intro a; simp [List.foldl_cons, ih]

theorem variantHasRole_iff (variant : Variant) (r : String) :
    variantHasRole variant r = true ↔ r ∈ varRoles variant := by
  cases ha : variant.audio <;> cases hv : variant.video <;>
    simp [variantHasRole, varRoles, ha, hv, List.contains, List.elem_iff]

theorem streamHasRole_iff (stream : Stream) (r : String) :
    streamHasRole stream r = true ↔ r ∈ stream.roles := by
  simp [streamHasRole, List.contains, List.elem_iff]

theorem mem_variantAllRoles (chosen : List Variant) (r : String) :
    r ∈ variantAllRoles chosen ↔ ∃ v ∈ chosen, r ∈ varRoles v := by
  simp [variantAllRoles, foldl_append_eq, List.mem_flatten, List.mem_map]

theorem mem_streamAllRoles (chosen : List Stream) (r : String) :
    r ∈ streamAllRoles chosen ↔ ∃ s ∈ chosen, r ∈ s.roles := by
  simp [streamAllRoles, foldl_append_eq, List.mem_flatten, List.mem_map]

theorem removeDupAux_sublist : ∀ l seen : List String, (removeDupAux l seen).Sublist l := by
  intro l
  induction l with
  | nil => intro seen; simp [removeDupAux]
  | cons x t ih =>
    intro seen
    by_cases h : x ∈ seen
    · simp only [removeDupAux, if_pos h]
      exact (ih seen).trans (List.sublist_cons_self x t)
    · simp only [removeDupAux, if_neg h]
      exact (ih (x :: seen)).cons₂ x

theorem mem_removeDupAux :
    ∀ (l seen : List String) (a : String),
      a ∈ removeDupAux l seen ↔ a ∈ l ∧ a ∉ seen := by
  intro l
  induction l with
  | nil => intro seen a; simp [removeDupAux]
  | cons x t ih =>
    intro seen a
    by_cases h : x ∈ seen
    · simp only [removeDupAux, if_pos h, ih, List.mem_cons]
      constructor
      · rintro ⟨ha, hs⟩; exact ⟨Or.inr ha, hs⟩
      · rintro ⟨ha | ha, hs⟩
        · exact absurd (ha ▸ h) hs
        · exact ⟨ha, hs⟩
    · rw [removeDupAux, if_neg h]
      simp only [List.mem_cons, ih]
      by_cases hax : a = x
      · simp [hax, h]
      · simp only [hax, false_or]

theorem removeDupAux_nodup : ∀ l seen : List String, (removeDupAux l seen).Nodup := by
  intro l
  induction l with
  | nil => intro seen; simp [removeDupAux]
  | cons x t ih =>
    intro seen
    by_cases h : x ∈ seen
    · simpa only [removeDupAux, if_pos h] using ih seen
    · simp only [removeDupAux, if_neg h, List.nodup_cons]
      refine ⟨fun hc => ?_, ih (x :: seen)⟩
      exact ((mem_removeDupAux t (x :: seen) x).1 hc).2 (List.mem_cons_self x seen)

theorem removeDuplicates_sublist (l : List String) :
    (removeDuplicates l).Sublist l :=
  removeDupAux_sublist l []

theorem mem_removeDuplicates (l : List String) (a : String) :
    a ∈ removeDuplicates l ↔ a ∈ l := by
  simp [removeDuplicates, mem_removeDupAux]

theorem removeDuplicates_nodup (l : List String) : (removeDuplicates l).Nodup :=
  removeDupAux_nodup l []

theorem removeDupAux_pairwise :
    ∀ l seen : List String,
      (removeDupAux l seen).Pairwise fun a b => l.indexOf a < l.indexOf b := by
  intro l
  induction l with
  | nil => intro seen; simp [removeDupAux]
  | cons x t ih =>
    intro seen
    by_cases hx : x ∈ seen
    · rw [removeDupAux, if_pos hx]
      refine List.Pairwise.imp_of_mem ?_ (ih seen)
      intro a b ha hb hab
      have hxa : x ≠ a := fun h => ((mem_removeDupAux t seen a).1 ha).2 (h ▸ hx)
      have hxb : x ≠ b := fun h => ((mem_removeDupAux t seen b).1 hb).2 (h ▸ hx)
      rw [List.indexOf_cons_ne t hxa, List.indexOf_cons_ne t hxb]
      omega
    · rw [removeDupAux, if_neg hx, List.pairwise_cons]
      constructor
      · intro b hb
        have hmem := (mem_removeDupAux t (x :: seen) b).1 hb
        have hxb : x ≠ b := fun h => hmem.2 (h ▸ List.mem_cons_self x seen)
        rw [List.indexOf_cons_self, List.indexOf_cons_ne t hxb]
        omega
      · refine List.Pairwise.imp_of_mem ?_ (ih (x :: seen))
        intro a b ha hb hab
        have hxa : x ≠ a := fun h =>
          ((mem_removeDupAux t (x :: seen) a).1 ha).2 (h ▸ List.mem_cons_self x seen)
        have hxb : x ≠ b := fun h =>
          ((mem_removeDupAux t (x :: seen) b).1 hb).2 (h ▸ List.mem_cons_self x seen)
        rw [List.indexOf_cons_ne t hxa, List.indexOf_cons_ne t hxb]
        omega

/-- removeDuplicates keeps elements in order of first occurrence: the
indices of their first occurrences in the input are strictly
increasing. -/
theorem removeDuplicates_pairwise (l : List String) :
    (removeDuplicates l).Pairwise fun a b => l.indexOf a < l.indexOf b :=
  removeDupAux_pairwise l []

/-! ### The language preference tier loop -/

theorem streamTier_foldl (LU : LanguageUtils) (pref : String) (mt : MatchType) :
    ∀ (l : List Stream) (c : List Stream) (m found : Bool),
      l.foldl (streamTierStep LU pref mt) (⟨c, m⟩, found) =
      (⟨(if found then
           c ++ l.filter (fun s => LU.langMatch mt pref (LU.normalize s.language))
         else if l.filter (fun s => LU.langMatch mt pref (LU.normalize s.language)) = [] then c
         else l.filter (fun s => LU.langMatch mt pref (LU.normalize s.language))),
        m || l.any (fun s => LU.langMatch mt pref (LU.normalize s.language))⟩,
       found || l.any (fun s => LU.langMatch mt pref (LU.normalize s.language))) := by
  intro l
  induction l with
  | nil => intro c m found; simp
  | cons s t ih =>
    intro c m found
    rw [List.foldl_cons]
    cases hq : LU.langMatch mt pref (LU.normalize s.language) with
    | false =>
      have hstep : streamTierStep LU pref mt (⟨c, m⟩, found) s = (⟨c, m⟩, found) := by
        simp [streamTierStep, hq]
      rw [hstep, ih]
      simp [List.filter_cons, List.any_cons, hq]
    | true =>
      cases found with
      | true =>
        have hstep : streamTierStep LU pref mt (⟨c, m⟩, true) s =
            (⟨c ++ [s], true⟩, true) := by
          simp [streamTierStep, hq]
        rw [hstep, ih]
        simp [List.filter_cons, List.any_cons, hq]
      | false =>
        have hstep : streamTierStep LU pref mt (⟨c, m⟩, false) s =
            (⟨[s], true⟩, true) := by
          simp [streamTierStep, hq]
        rw [hstep, ih]
        simp [List.filter_cons, List.any_cons, hq]

theorem runStreamTier_eq (LU : LanguageUtils) (pref : String) (mt : MatchType)
    (l : List Stream) (c : List Stream) (m : Bool) :
    runStreamTier LU l pref mt ⟨c, m⟩ =
      ⟨(if l.filter (fun s => LU.langMatch mt pref (LU.normalize s.language)) = [] then c
        else l.filter (fun s => LU.langMatch mt pref (LU.normalize s.language))),
       m || l.any (fun s => LU.langMatch mt pref (LU.normalize s.language))⟩ := by
  rw [runStreamTier, streamTier_foldl LU pref mt l c m false]
  simp

theorem variantTier_foldl (LU : LanguageUtils)
    (hN : ∀ s, LU.normalize (LU.normalize s) = LU.normalize s)
    (p : String) (mt : MatchType) :
    ∀ (l : List Variant) (c : List Variant) (m found : Bool),
      l.foldl (variantTierStep LU mt) (⟨c, LU.normalize p, m⟩, found) =
      (⟨(if found then
           c ++ l.filter (fun v => LU.langMatch mt (LU.normalize p) (LU.normalize v.language))
         else if l.filter
             (fun v => LU.langMatch mt (LU.normalize p) (LU.normalize v.language)) = [] then c
         else l.filter (fun v => LU.langMatch mt (LU.normalize p) (LU.normalize v.language))),
        LU.normalize p,
        m || l.any (fun v => LU.langMatch mt (LU.normalize p) (LU.normalize v.language))⟩,
       found || l.any (fun v => LU.langMatch mt (LU.normalize p) (LU.normalize v.language))) := by
  intro l
  induction l with
  | nil => intro c m found; simp
  | cons v t ih =>
    intro c m found
    rw [List.foldl_cons]
    cases hq : LU.langMatch mt (LU.normalize p) (LU.normalize v.language) with
    | false =>
      have hstep : variantTierStep LU mt (⟨c, LU.normalize p, m⟩, found) v =
          (⟨c, LU.normalize p, m⟩, found) := by
        simp [variantTierStep, hN, hq]
      rw [hstep, ih]
      simp [List.filter_cons, List.any_cons, hq]
    | true =>
      cases found with
      | true =>
        have hstep : variantTierStep LU mt (⟨c, LU.normalize p, m⟩, true) v =
            (⟨c ++ [v], LU.normalize p, true⟩, true) := by
          simp [variantTierStep, hN, hq]
        rw [hstep, ih]
        simp [List.filter_cons, List.any_cons, hq]
      | false =>
        have hstep : variantTierStep LU mt (⟨c, LU.normalize p, m⟩, false) v =
            (⟨[v], LU.normalize p, true⟩, true) := by
          simp [variantTierStep, hN, hq]
        rw [hstep, ih]
        simp [List.filter_cons, List.any_cons, hq]

theorem runVariantTier_eq (LU : LanguageUtils)
    (hN : ∀ s, LU.normalize (LU.normalize s) = LU.normalize s)
    (p : String) (mt : MatchType) (l : List Variant) (c : List Variant) (m : Bool) :
    runVariantTier LU l mt ⟨c, LU.normalize p, m⟩ =
      ⟨(if l.filter (fun v => LU.langMatch mt (LU.normalize p) (LU.normalize v.language)) = []
        then c
        else l.filter (fun v => LU.langMatch mt (LU.normalize p) (LU.normalize v.language))),
       LU.normalize p,
       m || l.any (fun v => LU.langMatch mt (LU.normalize p) (LU.normalize v.language))⟩ := by
  rw [runVariantTier, variantTier_foldl LU hN p mt l c m false]
  simp

theorem variantTierStep_chosen_sub (LU : LanguageUtils) (mt : MatchType)
    (acc : LangState × Bool) (v x : Variant) :
    x ∈ ((variantTierStep LU mt acc v).1).chosen → x ∈ acc.1.chosen ∨ x = v := by
  unfold variantTierStep
  dsimp only
  split
  · split
    · intro hx
      rcases List.mem_append.1 hx with h | h
      · exact Or.inl h
      · exact Or.inr (List.mem_singleton.1 h)
    · intro hx
      exact Or.inr (List.mem_singleton.1 hx)
  · intro hx
    exact Or.inl hx

theorem variantTierStep_chosen_ne (LU : LanguageUtils) (mt : MatchType)
    (acc : LangState × Bool) (v : Variant) (h : acc.1.chosen ≠ []) :
    ((variantTierStep LU mt acc v).1).chosen ≠ [] := by
  unfold variantTierStep
  dsimp only
  split
  · split
    · simp
    · simp
  · exact h

theorem variantTier_foldl_mem (LU : LanguageUtils) (mt : MatchType) :
    ∀ (l : List Variant) (acc : LangState × Bool) (x : Variant),
      x ∈ ((l.foldl (variantTierStep LU mt) acc).1).chosen →
      x ∈ acc.1.chosen ∨ x ∈ l := by
  intro l
  induction l with
  | nil => intro acc x hx; exact Or.inl hx
  | cons v t ih =>
    intro acc x hx
    rw [List.foldl_cons] at hx
    rcases ih _ x hx with h | h
    · rcases variantTierStep_chosen_sub LU mt acc v x h with h2 | h2
      · exact Or.inl h2
      · exact Or.inr (h2 ▸ List.mem_cons_self v t)
    · exact Or.inr (List.mem_cons_of_mem v h)

theorem variantTier_foldl_ne (LU : LanguageUtils) (mt : MatchType) :
    ∀ (l : List Variant) (acc : LangState × Bool), acc.1.chosen ≠ [] →
      ((l.foldl (variantTierStep LU mt) acc).1).chosen ≠ [] := by
  intro l
  induction l with
  | nil => intro acc h; exact h
  | cons v t ih =>
    intro acc h
    rw [List.foldl_cons]
    exact ih _ (variantTierStep_chosen_ne LU mt acc v h)

theorem runVariantTier_mem (LU : LanguageUtils) (mt : MatchType)
    (l : List Variant) (st : LangState) (x : Variant)
    (hx : x ∈ (runVariantTier LU l mt st).chosen) : x ∈ st.chosen ∨ x ∈ l :=
  variantTier_foldl_mem LU mt l (st, false) x hx

theorem runVariantTier_ne (LU : LanguageUtils) (mt : MatchType)
    (l : List Variant) (st : LangState) (h : st.chosen ≠ []) :
    (runVariantTier LU l mt st).chosen ≠ [] :=
  variantTier_foldl_ne LU mt l (st, false) h

/-! ### The selection phase: membership and nonemptiness -/

theorem firstLanguageFilter_ne (c0 : List Variant) (h : c0 ≠ []) :
    c0.filter (fun v => v.language == (c0.head?.elim "" fun variant => variant.language))
      ≠ [] := by
  cases c0 with
  | nil => exact absurd rfl h
  | cons a t =>
    rw [List.head?_cons, List.filter_cons]
    simp

theorem firstLanguageFilterS_ne (c0 : List Stream) (h : c0 ≠ []) :
    c0.filter (fun s => s.language == (c0.head?.elim "" fun stream => stream.language))
      ≠ [] := by
  cases c0 with
  | nil => exact absurd rfl h
  | cons a t =>
    rw [List.head?_cons, List.filter_cons]
    simp

theorem selectVariantsByLanguage_mem (LU : LanguageUtils) (playable : List Variant)
    (pl : String) (x : Variant)
    (hx : x ∈ (selectVariantsByLanguage LU playable pl).1) : x ∈ playable := by
  have hc0 : ∀ y : Variant,
      y ∈ (if (playable.filter fun variant => variant.primary) ≠ []
           then playable.filter (fun variant => variant.primary) else playable) →
      y ∈ playable := by
    intro y hy
    split at hy
    · exact List.mem_of_mem_filter hy
    · exact hy
  simp only [selectVariantsByLanguage] at hx
  by_cases hpl : pl ≠ ""
  · rw [if_pos hpl] at hx
    simp only [List.foldl_cons, List.foldl_nil] at hx
    rcases runVariantTier_mem LU _ playable _ x hx with hx | hx
    · rcases runVariantTier_mem LU _ playable _ x hx with hx | hx
      · rcases runVariantTier_mem LU _ playable _ x hx with hx | hx
        · exact hc0 x (List.mem_of_mem_filter hx)
        · exact hx
      · exact hx
    · exact hx
  · rw [if_neg hpl] at hx
    exact hc0 x (List.mem_of_mem_filter hx)

theorem selectVariantsByLanguage_ne (LU : LanguageUtils) (playable : List Variant)
    (pl : String) (h : playable ≠ []) :
    (selectVariantsByLanguage LU playable pl).1 ≠ [] := by
  have hc0 : (if (playable.filter fun variant => variant.primary) ≠ []
              then playable.filter (fun variant => variant.primary) else playable) ≠ [] := by
    split
    · assumption
    · exact h
  have hc1 := firstLanguageFilter_ne _ hc0
  simp only [selectVariantsByLanguage]
  by_cases hpl : pl ≠ ""
  · rw [if_pos hpl]
    simp only [List.foldl_cons, List.foldl_nil]
    exact runVariantTier_ne LU _ playable _
      (runVariantTier_ne LU _ playable _ (runVariantTier_ne LU _ playable _ hc1))
  · rw [if_neg hpl]
    exact hc1

/-! ### The role phase: membership and nonemptiness -/

theorem variantRoleFallback_mem (chosen : List Variant) (x : Variant)
    (hx : x ∈ variantRoleFallback chosen) : x ∈ chosen := by
  unfold variantRoleFallback at hx
  cases hA : variantAllRoles chosen with
  | nil =>
    rw [hA] at hx
    exact hx
  | cons r rest =>
    rw [hA] at hx
    exact List.mem_of_mem_filter hx

theorem variantRoleFallback_ne (chosen : List Variant) (h : chosen ≠ []) :
    variantRoleFallback chosen ≠ [] := by
  unfold variantRoleFallback
  cases hA : variantAllRoles chosen with
  | nil => exact h
  | cons r rest =>
    have hr : r ∈ variantAllRoles chosen := by
      rw [hA]; exact List.mem_cons_self r rest
    rcases (mem_variantAllRoles chosen r).1 hr with ⟨v, hv, hvr⟩
    have hmem : v ∈ filterVariantsByRole_ chosen r :=
      List.mem_filter.2 ⟨hv, (variantHasRole_iff v r).2 hvr⟩
    exact List.ne_nil_of_mem hmem

theorem streamRoleFallback_mem (chosen : List Stream) (x : Stream)
    (hx : x ∈ streamRoleFallback chosen) : x ∈ chosen := by
  unfold streamRoleFallback at hx
  cases hA : streamAllRoles chosen with
  | nil =>
    rw [hA] at hx
    exact hx
  | cons r rest =>
    rw [hA] at hx
    exact List.mem_of_mem_filter hx

theorem streamRoleFallback_ne (chosen : List Stream) (h : chosen ≠ []) :
    streamRoleFallback chosen ≠ [] := by
  unfold streamRoleFallback
  cases hA : streamAllRoles chosen with
  | nil => exact h
  | cons r rest =>
    have hr : r ∈ streamAllRoles chosen := by
      rw [hA]; exact List.mem_cons_self r rest
    rcases (mem_streamAllRoles chosen r).1 hr with ⟨s, hs, hsr⟩
    have hmem : s ∈ filterTextStreamsByRole_ chosen r :=
      List.mem_filter.2 ⟨hs, (streamHasRole_iff s r).2 hsr⟩
    exact List.ne_nil_of_mem hmem

theorem isStreamCompatible_some_eq (iss : Stream → Bool) (drm : Option DrmEngine)
    (active : Option Stream) (s : Stream) :
    isStreamCompatible_ iss (some s) drm active = specStreamCompatible iss drm active s := by
  unfold isStreamCompatible_ specStreamCompatible
  cases drm with
  | none =>
    cases hss : iss s <;> cases active <;> simp [drmInitialized, drmTypes, hss, bne]
  | some d =>
    cases hI : d.initialized with
    | false =>
      cases hss : iss s <;> cases active <;>
        simp [drmInitialized, drmTypes, hI, hss, bne]
    | true =>
      cases hss : iss s <;> cases hE : s.encrypted <;>
        cases hC : (d.getSupportedTypes).contains (getFullType s.mimeType s.codecs) <;>
          cases active <;> simp [drmInitialized, drmTypes, hI, hss, hE, hC, bne]

theorem drmClause_eq (drm : Option DrmEngine) (variant : Variant) :
    (match drm with
     | some d => if d.initialized then d.isSupportedByKeySystem variant else true
     | none => true) =
    (!(drmInitialized drm) || drmKeySupported drm variant) := by
  cases drm with
  | none => rfl
  | some d => cases hI : d.initialized <;> simp [drmInitialized, drmKeySupported, hI]

theorem isVariantCompatible_eq_spec (iss : Stream → Bool) (drm : Option DrmEngine)
    (activeAudio activeVideo : Option Stream) (variant : Variant) :
    isVariantCompatible_ iss variant drm activeAudio activeVideo =
      specVariantSurvives iss drm activeAudio activeVideo variant := by
  unfold isVariantCompatible_ specVariantSurvives
  rw [drmClause_eq]
  cases ha : variant.audio with
  | none =>
    cases hv : variant.video with
    | none => simp [isStreamCompatible_]
    | some b => rw [isStreamCompatible_some_eq]; simp [isStreamCompatible_]
  | some a =>
    cases hv : variant.video with
    | none => rw [isStreamCompatible_some_eq]; simp [isStreamCompatible_]
    | some b => rw [isStreamCompatible_some_eq, isStreamCompatible_some_eq]

/-- Claim C3: after filterNewPeriod, a text stream remains iff the text
render capability reports its full MIME type supported, and a variant
remains iff the DRM context (when initialized) reports it key system
supported and each present audio or video stream is platform decodable,
DRM compatible when encrypted, and matches the base MIME type and the
codec prefix of the same kind active stream when one is given; the
relative order of survivors is preserved. -/
theorem filterNewPeriod_spec (iss : Stream → Bool) (its : String → Bool)
    (drm : Option DrmEngine) (activeAudio activeVideo : Option Stream)
    (period : Period) :
    filterNewPeriod iss its drm activeAudio activeVideo period =
      { period with
        variants := period.variants.filter
          (fun variant => specVariantSurvives iss drm activeAudio activeVideo variant)
        textStreams := period.textStreams.filter
          (fun stream => specTextSurvives its stream) } ∧
    ((filterNewPeriod iss its drm activeAudio activeVideo period).variants.Sublist
       period.variants) ∧
    ((filterNewPeriod iss its drm activeAudio activeVideo period).textStreams.Sublist
       period.textStreams) := by
  refine ⟨?_, List.filter_sublist _, List.filter_sublist _⟩
  unfold filterNewPeriod
  simp only [Period.mk.injEq, true_and]
  constructor
  · exact List.filter_congr fun v _ =>
      isVariantCompatible_eq_spec iss drm activeAudio activeVideo v
  · exact List.filter_congr fun s _ => rfl

/-- Claim C4: meetsRestrictions returns false iff at least one bound is
strictly violated; with a video stream the resolution, hardware cap, pixel
and bandwidth bounds all apply, without one only the bandwidth bounds
apply, and values exactly equal to a bound pass. -/
theorem meetsRestrictions_true_iff (variant : Variant)
    (restrictions : Restrictions) (maxHwRes : MaxHwRes) :
    meetsRestrictions variant restrictions maxHwRes = true ↔
      ((∀ video, variant.video = some video →
         (restrictions.minWidth ≤ video.width ∧
          video.width ≤ restrictions.maxWidth ∧
          video.width ≤ maxHwRes.width ∧
          restrictions.minHeight ≤ video.height ∧
          video.height ≤ restrictions.maxHeight ∧
          video.height ≤ maxHwRes.height ∧
          restrictions.minPixels ≤ video.width * video.height ∧
          video.width * video.height ≤ restrictions.maxPixels)) ∧
       (restrictions.minBandwidth ≤ variant.bandwidth ∧
        variant.bandwidth ≤ restrictions.maxBandwidth)) := by
  cases hv : variant.video with
  | none => simp [meetsRestrictions, hv]
  | some video =>
    simp [meetsRestrictions, hv]
    tauto

/-- Claim C4: meetsRestrictions returns false iff at least one bound is
strictly violated; with a video stream the resolution, hardware cap, pixel
and bandwidth bounds all apply, without one only the bandwidth bounds
apply, and values exactly equal to a bound pass. -/
theorem meetsRestrictions_false_iff (variant : Variant)
    (restrictions : Restrictions) (maxHwRes : MaxHwRes) :
    meetsRestrictions variant restrictions maxHwRes = false ↔
      ((∃ video, variant.video = some video ∧
          (video.width < restrictions.minWidth ∨
           video.width > restrictions.maxWidth ∨
           video.width > maxHwRes.width ∨
           video.height < restrictions.minHeight ∨
           video.height > restrictions.maxHeight ∨
           video.height > maxHwRes.height ∨
           video.width * video.height < restrictions.minPixels ∨
           video.width * video.height > restrictions.maxPixels)) ∨
        variant.bandwidth < restrictions.minBandwidth ∨
        variant.bandwidth > restrictions.maxBandwidth) := by
  cases hv : variant.video with
  | none =>
    simp only [meetsRestrictions, hv, Bool.true_and, Bool.not_eq_false',
      Bool.or_eq_true, decide_eq_true_eq]
    simp
  | some video =>
    simp only [meetsRestrictions, hv, Bool.and_eq_false_iff, Bool.not_eq_false',
      Bool.or_eq_true, decide_eq_true_eq, Option.some.injEq, exists_eq_left']
    tauto

theorem meetsRestrictions_set_allowed (variant : Variant) (b : Bool)
    (restrictions : Restrictions) (maxHwRes : MaxHwRes) :
    meetsRestrictions { variant with allowedByApplication := b } restrictions maxHwRes =
      meetsRestrictions variant restrictions maxHwRes := rfl

/-- Claim C5: applyRestrictions recomputes allowedByApplication from
meetsRestrictions for every variant, returns true iff at least one flag
actually changed, and a second call with the same inputs returns false. -/
theorem applyRestrictions_spec (period : Period) (restrictions : Restrictions)
    (maxHwRes : MaxHwRes) :
    ((applyRestrictions period restrictions maxHwRes).1.variants.map
        (fun variant => variant.allowedByApplication) =
      period.variants.map
        (fun variant => meetsRestrictions variant restrictions maxHwRes)) ∧
    ((applyRestrictions period restrictions maxHwRes).2 = true ↔
      ∃ variant ∈ period.variants,
        variant.allowedByApplication ≠
          meetsRestrictions variant restrictions maxHwRes) ∧
    (applyRestrictions (applyRestrictions period restrictions maxHwRes).1
        restrictions maxHwRes).2 = false := by
  refine ⟨?_, ?_, ?_⟩
  · simp [applyRestrictions, List.map_map, Function.comp]
  · simp [applyRestrictions, List.any_eq_true]
  · simp [applyRestrictions, List.any_map, Function.comp, meetsRestrictions_set_allowed]

/-- Claim C6: getPlayableVariants is the stable filter of the input by
the conjunction of the two allowed flags, hence a subsequence preserving
relative order, and isPlayable is that conjunction. -/
theorem getPlayableVariants_spec (variants : List Variant) :
    getPlayableVariants variants =
      variants.filter (fun variant =>
        variant.allowedByApplication && variant.allowedByKeySystem) ∧
    (getPlayableVariants variants).Sublist variants ∧
    ∀ variant : Variant, isPlayable variant =
      (variant.allowedByApplication && variant.allowedByKeySystem) :=
  ⟨rfl, List.filter_sublist _, fun _ => rfl⟩

/-- Claim C1: when a preferred language is supplied, the three match tiers
run in order (other sub language, base language, exact) over the original
playable set, each tier overwriting the running selection at its first
match and appending later matches of the same tier; hence whenever the
playable set contains an exact tier match, the pre role selection is
exactly the list of exact tier matches in input order, for the variant
selector and for its text stream twin. -/
theorem exact_tier_dominates (LU : LanguageUtils)
    (hN : ∀ s, LU.normalize (LU.normalize s) = LU.normalize s)
    (preferredLanguage : String) (hpl : preferredLanguage ≠ "") :
    (∀ variants : List Variant,
      (∃ v ∈ getPlayableVariants variants,
        LU.langMatch MatchType.EXACT (LU.normalize preferredLanguage)
          (LU.normalize v.language) = true) →
      (selectVariantsByLanguage LU (getPlayableVariants variants) preferredLanguage).1 =
        (getPlayableVariants variants).filter
          (fun v => LU.langMatch MatchType.EXACT (LU.normalize preferredLanguage)
            (LU.normalize v.language))) ∧
    (∀ streams : List Stream,
      (∃ s ∈ streams,
        LU.langMatch MatchType.EXACT (LU.normalize preferredLanguage)
          (LU.normalize s.language) = true) →
      (selectStreamsByLanguage LU streams preferredLanguage).1 =
        streams.filter
          (fun s => LU.langMatch MatchType.EXACT (LU.normalize preferredLanguage)
            (LU.normalize s.language))) := by
  constructor
  · intro variants hex
    obtain ⟨v, hv, hq⟩ := hex
    have hne : (getPlayableVariants variants).filter
        (fun v => LU.langMatch MatchType.EXACT (LU.normalize preferredLanguage)
          (LU.normalize v.language)) ≠ [] :=
      List.ne_nil_of_mem (List.mem_filter.2 ⟨hv, hq⟩)
    simp only [selectVariantsByLanguage]
    rw [if_pos hpl]
    simp only [List.foldl_cons, List.foldl_nil]
    rw [runVariantTier_eq LU hN, runVariantTier_eq LU hN, runVariantTier_eq LU hN]
    dsimp only
    rw [if_neg hne]
  · intro streams hex
    obtain ⟨s, hs, hq⟩ := hex
    have hne : streams.filter
        (fun s => LU.langMatch MatchType.EXACT (LU.normalize preferredLanguage)
          (LU.normalize s.language)) ≠ [] :=
      List.ne_nil_of_mem (List.mem_filter.2 ⟨hs, hq⟩)
    simp only [selectStreamsByLanguage]
    rw [if_pos hpl]
    simp only [List.foldl_cons, List.foldl_nil]
    rw [runStreamTier_eq, runStreamTier_eq, runStreamTier_eq]
    dsimp only
    rw [if_neg hne]

/-- Claim C10: for every variant list whose playable subset is nonempty,
the language and role selector returns a nonempty list all of whose
entries are playable input variants: unsatisfiable preferences can never
empty the selection or introduce foreign entries. -/
theorem selector_playable_invariant (LU : LanguageUtils) (variants : List Variant)
    (preferredLanguage preferredRole : String)
    (h : getPlayableVariants variants ≠ []) :
    (filterVariantsByLanguageAndRole LU variants preferredLanguage preferredRole).1 ≠ [] ∧
    ∀ v ∈ (filterVariantsByLanguageAndRole LU variants preferredLanguage preferredRole).1,
      v ∈ getPlayableVariants variants := by
  have hselne :=
    selectVariantsByLanguage_ne LU (getPlayableVariants variants) preferredLanguage h
  have hselmem :=
    selectVariantsByLanguage_mem LU (getPlayableVariants variants) preferredLanguage
  simp only [filterVariantsByLanguageAndRole]
  split
  · rename_i hcond
    refine ⟨hcond.2, ?_⟩
    intro v hv
    exact hselmem v (List.mem_of_mem_filter hv)
  · rename_i hcond
    refine ⟨variantRoleFallback_ne _ hselne, ?_⟩
    intro v hv
    exact hselmem v (variantRoleFallback_mem _ v hv)

/-- Claim C7: whenever the final selection has an entry with a nonempty
role set, the output is role homogeneous: one role (the preferred role
when satisfiable, otherwise the first role encountered in the pre role
selection) is exposed by every entry, for variants and for text
streams. -/
theorem role_homogeneity (LU : LanguageUtils)
    (preferredLanguage preferredRole : String) :
    (∀ variants : List Variant,
      (∃ v ∈ (filterVariantsByLanguageAndRole LU variants preferredLanguage
          preferredRole).1, varRoles v ≠ []) →
      ∃ r,
        (∀ v ∈ (filterVariantsByLanguageAndRole LU variants preferredLanguage
            preferredRole).1, variantHasRole v r = true) ∧
        (if preferredRole ≠ "" ∧
            filterVariantsByRole_
              (selectVariantsByLanguage LU (getPlayableVariants variants)
                preferredLanguage).1 preferredRole ≠ []
         then r = preferredRole
         else (variantAllRoles
             (selectVariantsByLanguage LU (getPlayableVariants variants)
               preferredLanguage).1).head? = some r)) ∧
    (∀ streams : List Stream,
      (∃ s ∈ (filterStreamsByLanguageAndRole LU streams preferredLanguage
          preferredRole).1, s.roles ≠ []) →
      ∃ r,
        (∀ s ∈ (filterStreamsByLanguageAndRole LU streams preferredLanguage
            preferredRole).1, streamHasRole s r = true) ∧
        (if preferredRole ≠ "" ∧
            filterTextStreamsByRole_
              (selectStreamsByLanguage LU streams preferredLanguage).1
              preferredRole ≠ []
         then r = preferredRole
         else (streamAllRoles
             (selectStreamsByLanguage LU streams preferredLanguage).1).head? =
           some r)) := by
  constructor
  · intro variants hex
    simp only [filterVariantsByLanguageAndRole] at hex ⊢
    by_cases hcond : preferredRole ≠ "" ∧
        filterVariantsByRole_
          (selectVariantsByLanguage LU (getPlayableVariants variants)
            preferredLanguage).1 preferredRole ≠ []
    · rw [if_pos hcond] at hex ⊢
      refine ⟨preferredRole, ?_, ?_⟩
      · intro v hv
        exact (List.mem_filter.1 hv).2
      · rw [if_pos hcond]
    · rw [if_neg hcond] at hex ⊢
      cases hA : variantAllRoles
          (selectVariantsByLanguage LU (getPlayableVariants variants)
            preferredLanguage).1 with
      | nil =>
        exfalso
        obtain ⟨v, hv, hroles⟩ := hex
        have hv' : v ∈ (selectVariantsByLanguage LU (getPlayableVariants variants)
            preferredLanguage).1 := variantRoleFallback_mem _ v hv
        have hnone : ∀ a, a ∉ varRoles v := by
          intro a ha
          have hmem : a ∈ variantAllRoles
              (selectVariantsByLanguage LU (getPlayableVariants variants)
                preferredLanguage).1 :=
            (mem_variantAllRoles _ a).2 ⟨v, hv', ha⟩
          rw [hA] at hmem
          exact absurd hmem (List.not_mem_nil a)
        cases hvr : varRoles v with
        | nil => exact hroles hvr
        | cons a t => exact hnone a (hvr ▸ List.mem_cons_self a t)
      | cons r rest =>
        refine ⟨r, ?_, ?_⟩
        · intro v hv
          have hv2 : v ∈ variantRoleFallback
              (selectVariantsByLanguage LU (getPlayableVariants variants)
                preferredLanguage).1 := hv
          have heq : variantRoleFallback
              (selectVariantsByLanguage LU (getPlayableVariants variants)
                preferredLanguage).1 =
              filterVariantsByRole_
                (selectVariantsByLanguage LU (getPlayableVariants variants)
                  preferredLanguage).1 r := by
            unfold variantRoleFallback
            rw [hA]
          rw [heq] at hv2
          exact (List.mem_filter.1 hv2).2
        · rw [if_neg hcond]
          rfl
  · intro streams hex
    simp only [filterStreamsByLanguageAndRole] at hex ⊢
    by_cases hcond : preferredRole ≠ "" ∧
        filterTextStreamsByRole_
          (selectStreamsByLanguage LU streams preferredLanguage).1 preferredRole ≠ []
    · rw [if_pos hcond] at hex ⊢
      refine ⟨preferredRole, ?_, ?_⟩
      · intro s hs
        exact (List.mem_filter.1 hs).2
      · rw [if_pos hcond]
    · rw [if_neg hcond] at hex ⊢
      cases hA : streamAllRoles
          (selectStreamsByLanguage LU streams preferredLanguage).1 with
      | nil =>
        exfalso
        obtain ⟨s, hs, hroles⟩ := hex
        have hs' : s ∈ (selectStreamsByLanguage LU streams preferredLanguage).1 :=
          streamRoleFallback_mem _ s hs
        have hnone : ∀ a, a ∉ s.roles := by
          intro a ha
          have hmem : a ∈ streamAllRoles
              (selectStreamsByLanguage LU streams preferredLanguage).1 :=
            (mem_streamAllRoles _ a).2 ⟨s, hs', ha⟩
          rw [hA] at hmem
          exact absurd hmem (List.not_mem_nil a)
        cases hsr : s.roles with
        | nil => exact hroles hsr
        | cons a t => exact hnone a (hsr ▸ List.mem_cons_self a t)
      | cons r rest =>
        refine ⟨r, ?_, ?_⟩
        · intro s hs
          have hs2 : s ∈ streamRoleFallback
              (selectStreamsByLanguage LU streams preferredLanguage).1 := hs
          have heq : streamRoleFallback
              (selectStreamsByLanguage LU streams preferredLanguage).1 =
              filterTextStreamsByRole_
                (selectStreamsByLanguage LU streams preferredLanguage).1 r := by
            unfold streamRoleFallback
            rw [hA]
          rw [heq] at hs2
          exact (List.mem_filter.1 hs2).2
        · rw [if_neg hcond]
          rfl

/-! ### Claim C2 -/

/-- Counterexample to claim C2 as stated: with a playable selection whose
entries expose the roles commentary and main and the preferred role
caption, which no entry exposes, the selector does not return the pre
role selection unchanged: it filters it down to the entries exposing the
first role encountered. -/
theorem role_fallback_unchanged_cex :
    ("caption" : String) ≠ "" ∧
    (selectVariantsByLanguage LUid (getPlayableVariants [c2v1, c2v2]) "").1 =
      [c2v1, c2v2] ∧
    variantHasRole c2v1 "caption" = false ∧
    variantHasRole c2v2 "caption" = false ∧
    (filterVariantsByLanguageAndRole LUid [c2v1, c2v2] "" "caption").1 = [c2v1] ∧
    ([c2v1] : List Variant) ≠ [c2v1, c2v2] :=
  ⟨by decide, by decide, by decide, by decide, by decide, by decide⟩

/-- Claim C2 (amended): when a preferred role is supplied and no entry of
the pre role selection exposes it, the selector falls through to the
arbitrary role step applied to the pre role selection: the selection is
returned unchanged when no entry has any role, otherwise it is filtered
to the entries exposing the first role encountered; in either case the
result is nonempty whenever the pre role selection is nonempty.  Both the
variant selector and its text stream twin behave this way. -/
theorem role_fallback_arbitrary (LU : LanguageUtils)
    (preferredLanguage preferredRole : String) (hpr : preferredRole ≠ "") :
    (∀ variants : List Variant,
      (∀ v ∈ (selectVariantsByLanguage LU (getPlayableVariants variants)
          preferredLanguage).1, variantHasRole v preferredRole = false) →
      ((filterVariantsByLanguageAndRole LU variants preferredLanguage
          preferredRole).1 =
        variantRoleFallback
          (selectVariantsByLanguage LU (getPlayableVariants variants)
            preferredLanguage).1 ∧
       ((selectVariantsByLanguage LU (getPlayableVariants variants)
           preferredLanguage).1 ≠ [] →
        (filterVariantsByLanguageAndRole LU variants preferredLanguage
          preferredRole).1 ≠ []))) ∧
    (∀ streams : List Stream,
      (∀ s ∈ (selectStreamsByLanguage LU streams preferredLanguage).1,
        streamHasRole s preferredRole = false) →
      ((filterStreamsByLanguageAndRole LU streams preferredLanguage
          preferredRole).1 =
        streamRoleFallback
          (selectStreamsByLanguage LU streams preferredLanguage).1 ∧
       ((selectStreamsByLanguage LU streams preferredLanguage).1 ≠ [] →
        (filterStreamsByLanguageAndRole LU streams preferredLanguage
          preferredRole).1 ≠ []))) := by
  constructor
  · intro variants hnone
    have hempty : filterVariantsByRole_
        (selectVariantsByLanguage LU (getPlayableVariants variants)
          preferredLanguage).1 preferredRole = [] := by
      rw [filterVariantsByRole_, List.filter_eq_nil_iff]
      intro v hv
      simp [hnone v hv]
    have hcond : ¬(preferredRole ≠ "" ∧ filterVariantsByRole_
        (selectVariantsByLanguage LU (getPlayableVariants variants)
          preferredLanguage).1 preferredRole ≠ []) := by
      intro h
      exact h.2 hempty
    constructor
    · simp only [filterVariantsByLanguageAndRole]
      rw [if_neg hcond]
    · intro hne
      simp only [filterVariantsByLanguageAndRole]
      rw [if_neg hcond]
      exact variantRoleFallback_ne _ hne
  · intro streams hnone
    have hempty : filterTextStreamsByRole_
        (selectStreamsByLanguage LU streams preferredLanguage).1 preferredRole = [] := by
      rw [filterTextStreamsByRole_, List.filter_eq_nil_iff]
      intro s hs
      simp [hnone s hs]
    have hcond : ¬(preferredRole ≠ "" ∧ filterTextStreamsByRole_
        (selectStreamsByLanguage LU streams preferredLanguage).1 preferredRole ≠ []) := by
      intro h
      exact h.2 hempty
    constructor
    · simp only [filterStreamsByLanguageAndRole]
      rw [if_neg hcond]
    · intro hne
      simp only [filterStreamsByLanguageAndRole]
      rw [if_neg hcond]
      exact streamRoleFallback_ne _ hne

/-- Witness for the amended claim C2 at a concrete input. -/
theorem role_fallback_arbitrary_witness :
    ("caption" : String) ≠ "" ∧
    (∀ v ∈ (selectVariantsByLanguage LUid (getPlayableVariants [c2v1, c2v2]) "").1,
      variantHasRole v "caption" = false) ∧
    ((filterVariantsByLanguageAndRole LUid [c2v1, c2v2] "" "caption").1 =
      variantRoleFallback
        (selectVariantsByLanguage LUid (getPlayableVariants [c2v1, c2v2]) "").1 ∧
     ((selectVariantsByLanguage LUid (getPlayableVariants [c2v1, c2v2]) "").1 ≠ [] →
      (filterVariantsByLanguageAndRole LUid [c2v1, c2v2] "" "caption").1 ≠ [])) :=
  ⟨by decide, by decide,
   (role_fallback_arbitrary LUid "" "caption" (by decide)).1 [c2v1, c2v2] (by decide)⟩

/-- Witness for claim C1 at a concrete input: languages en and en-us with
preferred language en-us select exactly the exact match. -/
theorem exact_tier_dominates_witness :
    ("en-us" : String) ≠ "" ∧
    (∃ v ∈ getPlayableVariants [w1a, w1b],
      LUid.langMatch MatchType.EXACT (LUid.normalize "en-us")
        (LUid.normalize v.language) = true) ∧
    (selectVariantsByLanguage LUid (getPlayableVariants [w1a, w1b]) "en-us").1 =
      (getPlayableVariants [w1a, w1b]).filter
        (fun v => LUid.langMatch MatchType.EXACT (LUid.normalize "en-us")
          (LUid.normalize v.language)) :=
  ⟨by decide, by decide,
   (exact_tier_dominates LUid (fun _ => rfl) "en-us" (by decide)).1 [w1a, w1b]
     (by decide)⟩

/-- Witness for claim C10 at a concrete input with unsatisfiable language
and role preferences. -/
theorem selector_playable_invariant_witness :
    getPlayableVariants [w1a] ≠ [] ∧
    ((filterVariantsByLanguageAndRole LUid [w1a] "zz" "nope").1 ≠ [] ∧
     ∀ v ∈ (filterVariantsByLanguageAndRole LUid [w1a] "zz" "nope").1,
       v ∈ getPlayableVariants [w1a]) :=
  ⟨by decide, selector_playable_invariant LUid [w1a] "zz" "nope" (by decide)⟩

/-- Witness for claim C7 at a concrete input with no preferences: the
output is filtered to the first role encountered. -/
theorem role_homogeneity_witness :
    (∃ v ∈ (filterVariantsByLanguageAndRole LUid [c2v1, c2v2] "" "").1,
      varRoles v ≠ []) ∧
    (∃ r,
      (∀ v ∈ (filterVariantsByLanguageAndRole LUid [c2v1, c2v2] "" "").1,
        variantHasRole v r = true) ∧
      (if ("" : String) ≠ "" ∧
          filterVariantsByRole_
            (selectVariantsByLanguage LUid (getPlayableVariants [c2v1, c2v2]) "").1
            "" ≠ []
       then r = ""
       else (variantAllRoles
           (selectVariantsByLanguage LUid (getPlayableVariants [c2v1, c2v2]) "").1).head? =
         some r)) :=
  ⟨by decide, (role_homogeneity LUid "" "").1 [c2v1, c2v2] (by decide)⟩

/-! ### Claim C8 -/

/-- Counterexample to claim C8 as stated: the JavaScript falsy coercions
make the projection differ from the claim letter on empty strings.  A
variant whose video stream carries an empty MIME string projects to a
null mimeType, not to the video MIME string; and a variant whose video
stream carries an empty codec string next to an audio codec yields just
the audio codec, not a combined string led by the empty video part. -/
theorem variantToTrack_coercion_cex :
    vC8.video.map Stream.mimeType = some "" ∧
    (variantToTrack vC8).mimeType = none ∧
    (variantToTrack vC8).mimeType ≠ some "" ∧
    vC8b.video.map Stream.codecs = some "" ∧
    vC8b.audio.map Stream.codecs = some "mp4a.40.2" ∧
    (variantToTrack vC8b).codecs = some "mp4a.40.2" ∧
    some ("mp4a.40.2" : String) ≠ some ("" ++ ", " ++ "mp4a.40.2") :=
  ⟨rfl, rfl, by decide, rfl, rfl, by decide, by decide⟩

theorem variantToTrack_roles (variant : Variant) :
    (variantToTrack variant).roles = removeDuplicates (varRoles variant) := by
  cases ha : variant.audio <;> cases hv : variant.video <;>
    simp [variantToTrack, ha, hv]

/-- Claim C8 (amended): variantToTrack builds the combined codec string as
the video codec followed by the audio codec with absent (missing or
empty) parts omitted; takes the video MIME type when a video stream
exists and otherwise the audio MIME type, with the JavaScript falsy
coercion mapping an empty MIME string to null; deduplicates audio roles
followed by video roles preserving first occurrence (same members, no
duplicates, a subsequence, and first occurrence indices strictly
increasing); and leaves every audio only field null without an audio
stream and every video only field null without a video stream. -/
theorem variantToTrack_spec (variant : Variant) :
    (∀ vs astream, variant.video = some vs → variant.audio = some astream →
      (variantToTrack variant).codecs = some
        (if vs.codecs = "" then astream.codecs
         else if astream.codecs = "" then vs.codecs
         else vs.codecs ++ ", " ++ astream.codecs)) ∧
    (∀ vs, variant.video = some vs → variant.audio = none →
      (variantToTrack variant).codecs = some vs.codecs) ∧
    (∀ astream, variant.audio = some astream → variant.video = none →
      (variantToTrack variant).codecs = some astream.codecs) ∧
    (variant.video = none → variant.audio = none →
      (variantToTrack variant).codecs = some "") ∧
    ((variantToTrack variant).mimeType =
      (match variant.video, variant.audio with
       | some vs, _ => orNullStr vs.mimeType
       | none, some astream => orNullStr astream.mimeType
       | none, none => none)) ∧
    ((variantToTrack variant).roles = removeDuplicates (varRoles variant) ∧
     (variantToTrack variant).roles.Nodup ∧
     (variantToTrack variant).roles.Sublist (varRoles variant) ∧
     (∀ r, r ∈ (variantToTrack variant).roles ↔ r ∈ varRoles variant) ∧
     (variantToTrack variant).roles.Pairwise
       (fun a b => (varRoles variant).indexOf a < (varRoles variant).indexOf b)) ∧
    (variant.audio = none →
      (variantToTrack variant).audioCodec = none ∧
      (variantToTrack variant).audioId = none ∧
      (variantToTrack variant).channelsCount = none ∧
      (variantToTrack variant).audioBandwidth = none ∧
      (variantToTrack variant).label = none) ∧
    (variant.video = none →
      (variantToTrack variant).videoCodec = none ∧
      (variantToTrack variant).videoId = none ∧
      (variantToTrack variant).width = none ∧
      (variantToTrack variant).height = none ∧
      (variantToTrack variant).frameRate = none ∧
      (variantToTrack variant).videoBandwidth = none) := by
  refine ⟨?_, ?_, ?_, ?_, ?_, ?_, ?_, ?_⟩
  · intro vs astream hv ha
    by_cases h1 : vs.codecs = "" <;> by_cases h2 : astream.codecs = "" <;>
      simp [variantToTrack, hv, ha, h1, h2, String.intercalate,
        String.intercalate.go]
  · intro vs hv ha
    by_cases h1 : vs.codecs = "" <;>
      simp [variantToTrack, hv, ha, h1, String.intercalate,
        String.intercalate.go]
  · intro astream ha hv
    by_cases h1 : astream.codecs = "" <;>
      simp [variantToTrack, hv, ha, h1, String.intercalate,
        String.intercalate.go]
  · intro hv ha
    simp [variantToTrack, hv, ha, String.intercalate]
  · cases ha : variant.audio <;> cases hv : variant.video <;>
      simp [variantToTrack, ha, hv]
  · refine ⟨variantToTrack_roles variant, ?_, ?_, ?_, ?_⟩
    · rw [variantToTrack_roles]
      exact removeDuplicates_nodup _
    · rw [variantToTrack_roles]
      exact removeDuplicates_sublist _
    · intro r
      rw [variantToTrack_roles]
      exact mem_removeDuplicates _ r
    · rw [variantToTrack_roles]
      exact removeDuplicates_pairwise _
  · intro ha
    cases hv : variant.video <;> simp [variantToTrack, ha, hv]
  · intro hv
    cases ha : variant.audio <;> simp [variantToTrack, ha, hv]

/-- Witness for the amended claim C8 at a concrete input with both
streams present and nonempty codec strings. -/
theorem variantToTrack_spec_witness :
    (variantToTrack vBoth).codecs = some ("avc1.4d401f" ++ ", " ++ "mp4a.40.2") := by
  have h := (variantToTrack_spec vBoth).1 vBothVideo bStream rfl rfl
  rw [h]
  decide

/-! ### Claim C9 -/

theorem findPeriodLoop_le (periods : List Period) (t : Rat) :
    ∀ k i (p : Period), periods.get? i = some p → p.startTime ≤ t → i ≤ k →
      i ≤ findPeriodLoop periods t k := by
  intro k
  induction k with
  | zero =>
    intro i p _ _ hik
    simpa [findPeriodLoop] using hik
  | succ k ih =>
    intro i p hip hle hik
    rw [findPeriodLoop]
    cases hq : periods.get? (k + 1) with
    | some q =>
      dsimp only
      by_cases hge : t ≥ q.startTime
      · rw [if_pos hge]
        exact hik
      · rw [if_neg hge]
        rcases Nat.lt_or_ge i (k + 1) with hlt | hge2
        · exact ih i p hip hle (Nat.lt_succ_iff.1 hlt)
        · exfalso
          have : i = k + 1 := Nat.le_antisymm hik hge2
          rw [this, hq] at hip
          cases hip
          exact hge hle
    | none =>
      rcases Nat.lt_or_ge i (k + 1) with hlt | hge2
      · exact ih i p hip hle (Nat.lt_succ_iff.1 hlt)
      · exfalso
        have : i = k + 1 := Nat.le_antisymm hik hge2
        rw [this, hq] at hip
        cases hip

theorem findPeriodLoop_mem (periods : List Period) (t : Rat) :
    ∀ k, 0 < findPeriodLoop periods t k →
      ∃ p, periods.get? (findPeriodLoop periods t k) = some p ∧ p.startTime ≤ t := by
  intro k
  induction k with
  | zero =>
    intro h
    simp [findPeriodLoop] at h
  | succ k ih =>
    rw [findPeriodLoop]
    cases hq : periods.get? (k + 1) with
    | some q =>
      dsimp only
      by_cases hge : t ≥ q.startTime
      · rw [if_pos hge]
        intro _
        exact ⟨q, hq, hge⟩
      · rw [if_neg hge]
        exact ih
    | none => exact ih

theorem findPeriodLoop_zero (periods : List Period) (t : Rat) :
    ∀ k, (∀ i (p : Period), 0 < i → i ≤ k → periods.get? i = some p →
        ¬(p.startTime ≤ t)) →
      findPeriodLoop periods t k = 0 := by
  intro k
  induction k with
  | zero => intro _; rfl
  | succ k ih =>
    intro h
    rw [findPeriodLoop]
    cases hq : periods.get? (k + 1) with
    | some q =>
      dsimp only
      have hnot : ¬(q.startTime ≤ t) := h (k + 1) q (Nat.succ_pos k) le_rfl hq
      rw [if_neg hnot]
      exact ih fun i p hi hik hip => h i p hi (Nat.le_succ_of_le hik) hip
    | none =>
      exact ih fun i p hi hik hip => h i p hi (Nat.le_succ_of_le hik) hip

/-- Counterexample to claim C9 as stated: the concrete instance demands
result 1 for every tolerance above 0.000001, but a tolerance of 11
reaches the period starting at 20 and the function returns 2. -/
theorem findPeriodContainingTime_tolerance_cex :
    ((1 / 1000000 : Rat) < 11) ∧
    findPeriodContainingTime 11 M3 (9999999 / 1000000) = 2 ∧
    (2 : Nat) ≠ 1 := by
  refine ⟨by norm_num, ?_, by decide⟩
  show findPeriodLoop M3.periods (9999999 / 1000000 + 11) 2 = 2
  have hstep : findPeriodLoop M3.periods (9999999 / 1000000 + 11) 2 =
      if (9999999 / 1000000 + 11 : Rat) ≥ 20 then 2
      else findPeriodLoop M3.periods (9999999 / 1000000 + 11) 1 := rfl
  rw [hstep, if_pos (by norm_num)]

/-- Claim C9 (amended): for every manifest with at least one period,
findPeriodContainingTime returns the largest index whose start time is at
most time plus tolerance (0 when no positive index qualifies); on periods
starting at 0, 10, 20 with time 9.999999 it returns 1 for every tolerance
above 0.000001 that also stays below 10.000001 (a larger tolerance
reaches the period starting at 20). -/
theorem findPeriodContainingTime_spec :
    (∀ (threshold : Rat) (manifest : Manifest) (time : Rat),
      manifest.periods ≠ [] →
      ((∀ i (p : Period), manifest.periods.get? i = some p →
          p.startTime ≤ time + threshold →
          i ≤ findPeriodContainingTime threshold manifest time) ∧
       ((∃ i p, manifest.periods.get? i = some p ∧
            p.startTime ≤ time + threshold) →
         ∃ p, manifest.periods.get?
             (findPeriodContainingTime threshold manifest time) = some p ∧
           p.startTime ≤ time + threshold) ∧
       ((∀ i (p : Period), 0 < i → manifest.periods.get? i = some p →
           ¬(p.startTime ≤ time + threshold)) →
         findPeriodContainingTime threshold manifest time = 0))) ∧
    (∀ threshold : Rat, (1 / 1000000 : Rat) < threshold →
      threshold < 10000001 / 1000000 →
      findPeriodContainingTime threshold M3 (9999999 / 1000000) = 1) := by
  constructor
  · intro threshold manifest time hne
    have hn : 0 < manifest.periods.length := List.length_pos.2 hne
    refine ⟨?_, ?_, ?_⟩
    · intro i p hip hle
      have hik : i ≤ manifest.periods.length - 1 := by
        have hlt : i < manifest.periods.length := by
          by_contra hge
          rw [List.get?_eq_none.2 (Nat.le_of_not_lt hge)] at hip
          cases hip
        omega
      exact findPeriodLoop_le manifest.periods (time + threshold)
        (manifest.periods.length - 1) i p hip hle hik
    · rintro ⟨i, p, hip, hle⟩
      by_cases hz : 0 < findPeriodContainingTime threshold manifest time
      · exact findPeriodLoop_mem manifest.periods (time + threshold)
          (manifest.periods.length - 1) hz
      · have hr0 : findPeriodContainingTime threshold manifest time = 0 :=
          Nat.eq_zero_of_not_pos hz
        have hik : i ≤ manifest.periods.length - 1 := by
          have hlt : i < manifest.periods.length := by
            by_contra hge
            rw [List.get?_eq_none.2 (Nat.le_of_not_lt hge)] at hip
            cases hip
          omega
        have hi0 : i = 0 := by
          have := findPeriodLoop_le manifest.periods (time + threshold)
            (manifest.periods.length - 1) i p hip hle hik
          rw [show findPeriodLoop manifest.periods (time + threshold)
              (manifest.periods.length - 1) =
              findPeriodContainingTime threshold manifest time from rfl, hr0] at this
          omega
        rw [hr0]
        rw [hi0] at hip
        exact ⟨p, hip, hle⟩
    · intro h
      exact findPeriodLoop_zero manifest.periods (time + threshold)
        (manifest.periods.length - 1)
        (fun i p hi _ hip => h i p hi hip)
  · intro threshold h1 h2
    have hlt : (9999999 / 1000000 : Rat) + threshold < 20 := by
      have : (9999999 / 1000000 : Rat) + 10000001 / 1000000 = 20 := by norm_num
      linarith
    have hge : (10 : Rat) ≤ 9999999 / 1000000 + threshold := by
      have : (9999999 / 1000000 : Rat) + 1 / 1000000 = 10 := by norm_num
      linarith
    show findPeriodLoop M3.periods (9999999 / 1000000 + threshold) 2 = 1
    have hstep2 : findPeriodLoop M3.periods (9999999 / 1000000 + threshold) 2 =
        if (9999999 / 1000000 + threshold : Rat) ≥ 20 then 2
        else findPeriodLoop M3.periods (9999999 / 1000000 + threshold) 1 := rfl
    have hstep1 : findPeriodLoop M3.periods (9999999 / 1000000 + threshold) 1 =
        if (9999999 / 1000000 + threshold : Rat) ≥ 10 then 1
        else findPeriodLoop M3.periods (9999999 / 1000000 + threshold) 0 := rfl
    rw [hstep2, if_neg (not_le.2 hlt), hstep1, if_pos hge]

/-- Witness for the amended claim C9: a tolerance of 1 is inside the
amended bounds and yields period index 1. -/
theorem findPeriodContainingTime_spec_witness :
    ((1 / 1000000 : Rat) < 1) ∧ ((1 : Rat) < 10000001 / 1000000) ∧
    findPeriodContainingTime 1 M3 (9999999 / 1000000) = 1 :=
  ⟨by norm_num, by norm_num,
   findPeriodContainingTime_spec.2 1 (by norm_num) (by norm_num)⟩

end Shaka
